import Mathlib

/-!
Verification development for the CAO chat-transcript module.

The definitions below are a shallow embedding of the TypeScript sources:
  * `src/utils/chat.ts` — `parseUserPrompt`, `parseChat`, `validateChatFormat`,
    `detectChatFormat`, `processStreamingCalloutContent`;
  * `src/utils/content.ts` — `extractWikilinks`;
  * `src/utils/constants.ts` — the four turn-marker strings;
  * `src/providers/base.ts` — `BaseProvider.wrapStream`;
  * `src/providers/anthropic.ts` — the streaming event mapper.

JavaScript strings are modelled as Lean `String`s (lists of characters);
string primitives used by the code (`split("\n")`, `startsWith`, `trim`,
`slice`, the wikilink regular expression) are embedded as structurally
recursive character-level functions so that concrete runs reduce in the
kernel.  The Obsidian `App` together with `resolveWikilink` is abstracted
as a function `resolve : String → Option String` (the JavaScript code only
uses the resolved text through its truthiness, which for strings means
"present and non-empty").
-/

namespace CAO

/-- Turn marker from `constants.ts`: `HEADER_USER_PREFIX = "### Me"`. -/
def headerUserMark : String := "### Me"

/-- Turn marker from `constants.ts`: `HEADER_AI_PREFIX = "### CAO"`. -/
def headerAIMark : String := "### CAO"

/-- Turn marker from `constants.ts`: `CALLOUT_USER_PREFIX = "> [!question]+ Me"`. -/
def calloutUserMark : String := "> [!question]+ Me"

/-- Turn marker from `constants.ts`: `CALLOUT_AI_PREFIX = "> [!success]+ CAO"`. -/
def calloutAIMark : String := "> [!success]+ CAO"

/-! ### Character-level embeddings of the JavaScript string primitives -/

/-- JavaScript `s.startsWith(p)`. -/
def strStartsWith (s p : String) : Bool :=
  p.data.isPrefixOf s.data

/-- JavaScript `text.split("\n")`, accumulating the current line. -/
def splitLinesAux : List Char → List Char → List String
  | [], cur => [cur.asString]
  | '\n' :: rest, cur => cur.asString :: splitLinesAux rest []
  | c :: rest, cur => splitLinesAux rest (cur ++ [c])

/-- JavaScript `text.split("\n")`. -/
def splitLines (text : String) : List String :=
  splitLinesAux text.data []

/-- JavaScript `array.join("\n")` on an array of lines. -/
def joinLines : List String → String
  | [] => ""
  | [l] => l
  | l :: rest => l ++ "\n" ++ joinLines rest

/-- The characters JavaScript's `String.prototype.trim` removes: the
WhiteSpace and LineTerminator code points. -/
def isJsSpace (c : Char) : Bool :=
  ['\t', '\n', '\x0b', '\x0c', '\r', ' ', '\u00a0', '\u1680',
   '\u2000', '\u2001', '\u2002', '\u2003', '\u2004', '\u2005', '\u2006',
   '\u2007', '\u2008', '\u2009', '\u200a', '\u2028', '\u2029', '\u202f',
   '\u205f', '\u3000', '\ufeff'].contains c

/-- JavaScript `s.trim()`. -/
def trimJS (s : String) : String :=
  (((s.data.dropWhile isJsSpace).reverse.dropWhile isJsSpace).reverse).asString

/-- JavaScript `s.slice(n)` for a non-negative `n` (used as `line.slice(2)`). -/
def strDropChars (s : String) (n : Nat) : String :=
  (s.data.drop n).asString

/-- The first `n` characters of `s` (JavaScript `s.slice(0, n)`). -/
def strTakeChars (s : String) (n : Nat) : String :=
  (s.data.take n).asString

/-! ### `extractWikilinks` (src/utils/content.ts)

The regular expression `/\[\[(.*?)\]\]/g`: `.` matches any character except
a line terminator, `(.*?)` is the shortest run followed by `]]`, and a
failed attempt at one position resumes at the next position. -/

/-- Whether a character is matched by `.` in a JavaScript regular expression
(anything but a line terminator). -/
def isRegexDot (c : Char) : Bool :=
  !(c == '\n' || c == '\r' || c == '\u2028' || c == '\u2029')

/-- Minimal-match search for `]]`: given the characters after an opening
`[[`, return the captured run and the characters after the closing `]]`. -/
def findWikiClose : List Char → Option (List Char × List Char)
  | c1 :: c2 :: rest =>
      if c1 = ']' ∧ c2 = ']' then some ([], rest)
      else if isRegexDot c1 then
        (findWikiClose (c2 :: rest)).map (fun p => (c1 :: p.1, p.2))
      else none
  | _ => none

/-- All capture groups of `text.match(/\[\[(.*?)\]\]/g)`.  The extra `Nat`
is fuel that makes the recursion structural (and hence kernel-reducible):
after a match the scan resumes after the closing `]]`, after a failed
attempt it resumes one character later, so every step consumes at least one
character and `l.length` fuel is enough. -/
def extractWikilinksAux : Nat → List Char → List (List Char)
  | 0, _ => []
  | _ + 1, [] => []
  | fuel + 1, l =>
      match l with
      | '[' :: '[' :: rest =>
          (match findWikiClose rest with
           | some (cap, r) => cap :: extractWikilinksAux fuel r
           | none => extractWikilinksAux fuel ('[' :: rest))
      | _ :: rest => extractWikilinksAux fuel rest
      | [] => []

/-- `extractWikilinks` from `content.ts`: every `[[…]]` capture, keeping only
the part before a `|` separator. -/
def extractWikilinks (text : String) : List String :=
  (extractWikilinksAux text.data.length text.data).map
    (fun cap => (cap.takeWhile (fun c => c != '|')).asString)

/-! ### The data model (src/types/content.ts) -/

/-- A chat message's role (`"user" | "assistant"`). -/
inductive Role where
  | user
  | assistant
deriving DecidableEq, Repr

/-- One content block, `{ type: "text", content: string }`. -/
structure ContentBlock where
  type : String
  content : String
deriving DecidableEq, Repr

/-- A chat message: a role and its content blocks. -/
structure ChatMessage where
  role : Role
  content : List ContentBlock
deriving DecidableEq, Repr

/-! ### `parseUserPrompt` (src/utils/chat.ts, lines 12–31)

The mutable `Set<string>` of already-processed wikilinks is modelled as a
`List String` threaded through the computation; the JavaScript set is only
used through membership tests and insertions, and insertions append in
first-expansion order. -/

/-- The context section appended for one resolved wikilink. -/
def wikiSection (wikilink resolvedContent : String) : String :=
  "\n\nContext from [[" ++ wikilink ++ "]]:\n" ++ resolvedContent

/-- One iteration of `parseUserPrompt`'s `for` loop over the extracted
wikilinks: skip an already-processed link; otherwise resolve it, and if the
result is truthy (present and non-empty) append its context section and
record the link as processed. -/
def parseUserPromptStep (resolve : String → Option String)
    (acc : String × List String) (wikilink : String) : String × List String :=
  if wikilink ∈ acc.2 then acc
  else
    match resolve wikilink with
    | some resolvedContent =>
        if resolvedContent = "" then acc
        else (acc.1 ++ wikiSection wikilink resolvedContent, acc.2 ++ [wikilink])
    | none => acc

/-- `parseUserPrompt`: prepend `"User query: "` and expand each wikilink not
yet in `processedWikilinks`, returning the prompt and the updated set. -/
def parseUserPrompt (resolve : String → Option String) (userQuery : String)
    (processedWikilinks : List String) : String × List String :=
  (extractWikilinks userQuery).foldl (parseUserPromptStep resolve)
    ("User query: " ++ userQuery, processedWikilinks)

/-! ### `parseChat` (src/utils/chat.ts, lines 33–164) -/

/-- The loop state of `parseChat`: the messages pushed so far, the role of
`currentMessage` (its content is only filled in when it is flushed), the
accumulated `content` lines, the `inCallout` flag, and the processed-wikilink
set.  `flushedQueries` is a specification-only log of the query strings that
were routed through `parseUserPrompt`; no other field and no message depends
on it. -/
structure ParseState where
  messages : List ChatMessage
  currentRole : Option Role
  content : List String
  inCallout : Bool
  processed : List String
  flushedQueries : List String
deriving Repr

/-- `content.join("\n").trim()`. -/
def joinTrim (content : List String) : String :=
  trimJS (joinLines content)

/-- The callout variant: strip one `"> "` from each buffered line that has
one, then join and trim. -/
def stripCalloutJoinTrim (content : List String) : String :=
  trimJS (joinLines (content.map
    (fun l => if strStartsWith l "> " then strDropChars l 2 else l)))

/-- Buffered content as flushed by the callout branches and the final flush:
callout prefixes are stripped only when `inCallout` is set. -/
def flushedText (inCallout : Bool) (content : List String) : String :=
  if inCallout then stripCalloutJoinTrim content else joinTrim content

/-- One iteration of `parseChat`'s `for` loop over the lines. -/
def parseChatLine (resolve : String → Option String)
    (st : ParseState) (line : String) : ParseState :=
  if strStartsWith line headerUserMark then
    match st.currentRole with
    | some r =>
        ⟨st.messages ++ [⟨r, [⟨"text", joinTrim st.content⟩]⟩],
         some Role.user, [], false, st.processed, st.flushedQueries⟩
    | none => ⟨st.messages, some Role.user, [], false, st.processed, st.flushedQueries⟩
  else if strStartsWith line headerAIMark then
    match st.currentRole with
    | some r =>
        let userQuery := joinTrim st.content
        let p := parseUserPrompt resolve userQuery st.processed
        ⟨st.messages ++ [⟨r, [⟨"text", p.1⟩]⟩],
         some Role.assistant, [], false, p.2, st.flushedQueries ++ [userQuery]⟩
    | none => ⟨st.messages, some Role.assistant, [], false, st.processed, st.flushedQueries⟩
  else if strStartsWith line calloutUserMark then
    match st.currentRole with
    | some r =>
        ⟨st.messages ++ [⟨r, [⟨"text", flushedText st.inCallout st.content⟩]⟩],
         some Role.user, [], true, st.processed, st.flushedQueries⟩
    | none => ⟨st.messages, some Role.user, [], true, st.processed, st.flushedQueries⟩
  else if strStartsWith line calloutAIMark then
    match st.currentRole with
    | some r =>
        let processedContent := flushedText st.inCallout st.content
        let p := parseUserPrompt resolve processedContent st.processed
        ⟨st.messages ++ [⟨r, [⟨"text", p.1⟩]⟩],
         some Role.assistant, [], true, p.2, st.flushedQueries ++ [processedContent]⟩
    | none => ⟨st.messages, some Role.assistant, [], true, st.processed, st.flushedQueries⟩
  else
    ⟨st.messages, st.currentRole, st.content ++ [line], st.inCallout,
     st.processed, st.flushedQueries⟩

/-- The flush of the last message after the loop (lines 133–155). -/
def parseChatFinish (resolve : String → Option String) (st : ParseState) : ParseState :=
  match st.currentRole with
  | some r =>
      let processedContent := flushedText st.inCallout st.content
      let p := parseUserPrompt resolve processedContent st.processed
      ⟨st.messages ++ [⟨r, [⟨"text", p.1⟩]⟩],
       none, [], st.inCallout, p.2, st.flushedQueries ++ [processedContent]⟩
  | none => st

/-- `parseChat`'s initial state: no messages, no current message, empty
buffer, not in a callout, empty processed-wikilink set. -/
def initState : ParseState :=
  ⟨[], none, [], false, [], []⟩

/-- The whole construction phase of `parseChat`: the line loop followed by
the final flush. -/
def parseChatFold (resolve : String → Option String) (text : String) : ParseState :=
  parseChatFinish resolve ((splitLines text).foldl (parseChatLine resolve) initState)

/-- The message list `parseChat` constructs before validating alternation. -/
def parseChatMessages (resolve : String → Option String) (text : String) :
    List ChatMessage :=
  (parseChatFold resolve text).messages

/-- The validation loop of `parseChat` (lines 157–161): index `i` must hold
a user message when even and an assistant message when odd. -/
def checkAlternation (messages : List ChatMessage) : Bool :=
  (List.range messages.length).all (fun i =>
    if i % 2 = 0 then (messages.getD i ⟨Role.user, []⟩).role == Role.user
    else (messages.getD i ⟨Role.user, []⟩).role == Role.assistant)

/-- `parseChat`: construct the message list, then return it when the
alternation check passes and `null` (here `none`) otherwise. -/
def parseChat (resolve : String → Option String) (text : String) :
    Option (List ChatMessage) :=
  let messages := parseChatMessages resolve text
  if checkAlternation messages then some messages else none

/-! ### `detectChatFormat` (src/utils/chat.ts, lines 242–275) -/

/-- The detector's result (`"headers" | "callouts" | "mixed" | "empty"`). -/
inductive ChatFormat where
  | headers
  | callouts
  | mixed
  | empty
deriving DecidableEq, Repr

/-- Whether a line starts with one of the two header markers. -/
def isHeaderMarkLine (line : String) : Bool :=
  strStartsWith line headerUserMark || strStartsWith line headerAIMark

/-- Whether a line starts with one of the two callout markers. -/
def isCalloutMarkLine (line : String) : Bool :=
  strStartsWith line calloutUserMark || strStartsWith line calloutAIMark

/-- The scan of `detectChatFormat`: update `hasHeaders` / `hasCallouts` per
line (an `else if`, so a header-marker line is not tested for callouts) and
return `mixed` as soon as both are set; at the end classify by the flags. -/
def detectChatFormatLoop : List String → Bool → Bool → ChatFormat
  | [], hasHeaders, hasCallouts =>
      if hasHeaders then ChatFormat.headers
      else if hasCallouts then ChatFormat.callouts
      else ChatFormat.empty
  | line :: rest, hasHeaders, hasCallouts =>
      let hasHeaders' := hasHeaders || isHeaderMarkLine line
      let hasCallouts' :=
        if isHeaderMarkLine line then hasCallouts
        else hasCallouts || isCalloutMarkLine line
      if hasHeaders' && hasCallouts' then ChatFormat.mixed
      else detectChatFormatLoop rest hasHeaders' hasCallouts'

/-- `detectChatFormat`. -/
def detectChatFormat (text : String) : ChatFormat :=
  detectChatFormatLoop (splitLines text) false false

/-! ### `validateChatFormat` (src/utils/chat.ts, lines 166–240) -/

/-- The error record of a failed validation (`{ type, message }`). -/
structure FormatError where
  type : String
  message : String
deriving DecidableEq, Repr

/-- `ChatFormatValidation`: `isValid`, an optional error and, on success,
the detected format. -/
structure ChatFormatValidation where
  isValid : Bool
  error : Option FormatError
  format : Option ChatFormat
deriving DecidableEq, Repr

/-- The `hasContent` scan of `validateChatFormat`: some line is not a marker
line and has non-blank content. -/
def hasContentCheck (text : String) : Bool :=
  (splitLines text).any (fun line =>
    !strStartsWith line headerUserMark &&
    !strStartsWith line headerAIMark &&
    !strStartsWith line calloutUserMark &&
    !strStartsWith line calloutAIMark &&
    (trimJS line).length > 0)

/-- `validateChatFormat`. -/
def validateChatFormat (text : String) (useCallouts : Bool) : ChatFormatValidation :=
  let detectedFormat := detectChatFormat text
  if detectedFormat = ChatFormat.mixed then
    ⟨false, some ⟨"format",
      "This chat contains mixed formatting (both headers and callouts)."⟩, none⟩
  else if detectedFormat = ChatFormat.empty then
    ⟨false, some ⟨"format",
      "No valid formatting found (headers or callouts)."⟩, none⟩
  else if detectedFormat = ChatFormat.headers ∧ useCallouts = true then
    ⟨false, some ⟨"format",
      "This chat uses header format, please disable \"Use callouts for chat formatting\" in settings to continue."⟩, none⟩
  else if detectedFormat = ChatFormat.callouts ∧ useCallouts = false then
    ⟨false, some ⟨"format",
      "This chat uses callout format, please enable \"Use callouts for chat formatting\" in settings to continue."⟩, none⟩
  else if hasContentCheck text = false then
    ⟨false, some ⟨"empty_message", "Query message is empty."⟩, none⟩
  else
    ⟨true, none, some detectedFormat⟩

/-! ### `processStreamingCalloutContent` (src/utils/chat.ts, lines 305–328) -/

/-- One iteration of the character loop: prepend `"> "` when at the start of
a line, emit the character, and remember whether it was a newline. -/
def processStreamingCalloutStep (acc : List Char × Bool) (c : Char) :
    List Char × Bool :=
  ((if acc.2 then acc.1 ++ ['>', ' '] else acc.1) ++ [c], c == '\n')

/-- `processStreamingCalloutContent`: an empty chunk is returned unchanged
with the state untouched; otherwise the characters are processed in order. -/
def processStreamingCalloutContent (chunk : String) (isStartOfLine : Bool) :
    String × Bool :=
  if chunk = "" then (chunk, isStartOfLine)
  else
    let r := chunk.data.foldl processStreamingCalloutStep ([], isStartOfLine)
    (r.1.asString, r.2)

/-! ### `wrapStream` (src/providers/base.ts, lines 36–54) and the Anthropic
event mapper (src/providers/anthropic.ts, lines 45–66)

The unified `StreamingEvent` follows `src/types/content.ts`; an async
iterator is modelled as the list of outcomes of its successive `next`
calls — each raw event either arrives (`Except.ok`) or the iteration
throws (`Except.error`), which ends it.  The adapter callback
`eventMapper` may itself throw, hence its `Except` result; `Except.ok
none` is the "skip" outcome (`return null`). -/

/-- `Usage`: input/output/total token counts. -/
structure Usage where
  inputTokens : Nat
  outputTokens : Nat
  totalTokens : Nat
deriving DecidableEq, Repr

/-- The unified streaming event (`type: "content" | "usage" | "done" |
"error"` with the corresponding payload). -/
inductive StreamingEvent where
  | content (data : ContentBlock)
  | usage (data : Usage)
  | done
  | error (message : String)
deriving DecidableEq, Repr

/-- `BaseProvider.wrapStream`: map raw events through `eventMapper`,
yielding the mapped event when it is non-null; on normal exhaustion yield
`done`; when the iteration or the mapper throws, yield `error` and stop. -/
def wrapStream (α : Type) (providerStream : List (Except String α))
    (eventMapper : α → Except String (Option StreamingEvent)) :
    List StreamingEvent :=
  match providerStream with
  | [] => [StreamingEvent.done]
  | Except.error e :: _ => [StreamingEvent.error e]
  | Except.ok rawEvent :: rest =>
      match eventMapper rawEvent with
      | Except.error e => [StreamingEvent.error e]
      | Except.ok none => wrapStream α rest eventMapper
      | Except.ok (some mappedEvent) => mappedEvent :: wrapStream α rest eventMapper

/-- A raw Anthropic streaming event, as far as the mapper inspects it:
a `content_block_delta` whose delta has a `text` field, a `message_delta`
with (`some`) or without (`none`) a usage object, or any other event type. -/
inductive AnthropicRawEvent where
  | contentBlockDelta (text : String)
  | messageDelta (outputTokens : Option Nat)
  | otherEvent
deriving DecidableEq, Repr

/-- The adapter callback `streamMessage` passes to `wrapStream`: content
deltas map to `content`, `message_delta` with usage maps to `usage` (input
count 0, output and total from `output_tokens`), everything else to null. -/
def anthropicEventMapper : AnthropicRawEvent → Option StreamingEvent
  | AnthropicRawEvent.contentBlockDelta t =>
      some (StreamingEvent.content ⟨"text", t⟩)
  | AnthropicRawEvent.messageDelta (some outputTokens) =>
      some (StreamingEvent.usage ⟨0, outputTokens, outputTokens⟩)
  | AnthropicRawEvent.messageDelta none => none
  | AnthropicRawEvent.otherEvent => none

/-! ### Specification-side definitions used by the theorems -/

/-- The resolver of the spec's worked example: `Note A` resolves to
`"Note A body"`, nothing else resolves. -/
def resolveNoteA : String → Option String :=
  fun linkText => if linkText = "Note A" then some "Note A body" else none

/-- Whether a unified event is terminal (`done` or `error`). -/
def isTerminalEvent : StreamingEvent → Bool
  | StreamingEvent.done => true
  | StreamingEvent.error _ => true
  | _ => false

/-- A failure occurs while `wrapStream` iterates: the upstream iterator
throws, or the adapter callback throws on a delivered event. -/
def streamHasFailure (α : Type) (providerStream : List (Except String α))
    (eventMapper : α → Except String (Option StreamingEvent)) : Prop :=
  ∃ x ∈ providerStream,
    (∃ e, x = Except.error e) ∨
    (∃ a e, x = Except.ok a ∧ eventMapper a = Except.error e)

/-- The strict alternation property by index, as the spec states it: even
positions hold user turns, odd positions hold assistant turns. -/
def alternationOk (messages : List ChatMessage) : Prop :=
  ∀ i (h : i < messages.length),
    (i % 2 = 0 → (messages.get ⟨i, h⟩).role = Role.user) ∧
    (i % 2 = 1 → (messages.get ⟨i, h⟩).role = Role.assistant)

/-- The concatenated context sections for a list of wikilinks (what
`parseUserPrompt` appends for the links it newly expands). -/
def sectionsFor (resolve : String → Option String) : List String → String
  | [] => ""
  | w :: ws => wikiSection w ((resolve w).getD "") ++ sectionsFor resolve ws

/-- The processed-wikilink invariant of `parseChat`'s loop state: the set
holds no duplicates, and a link is in it exactly when it resolves truthily
and occurs in some query already routed through `parseUserPrompt`. -/
def pwInv (resolve : String → Option String) (st : ParseState) : Prop :=
  st.processed.Nodup ∧
  ∀ t, t ∈ st.processed ↔
    ((∃ s, resolve t = some s ∧ s ≠ "") ∧
      ∃ q ∈ st.flushedQueries, t ∈ extractWikilinks q)

/-- Specification-side batch description of the quote transducer (for C9):
`"> "` is inserted before the first character when the incoming state is
true and before every character that immediately follows a `'\n'`; nothing
is inserted after a `'\n'` that ends the chunk. -/
def quoteBatchSpec : List Char → Bool → List Char
  | [], _ => []
  | c :: rest, s => (if s then ['>', ' '] else []) ++ c :: quoteBatchSpec rest (c == '\n')

/-- Specification-side returned state (for C9): true exactly when the chunk
is non-empty and ends in `'\n'`, or the chunk is empty and the incoming
state was true. -/
def quoteStateSpec (l : List Char) (s : Bool) : Bool :=
  match l.getLast? with
  | some c => c == '\n'
  | none => s

/-! ### Theorems -/

/-- C1 counterexample: on `"### Me\nWhat is [[Note A]]?\n### CAO\n"` the
parser does **not** return a raw, unexpanded user turn and an empty
assistant turn.  The user turn's stored content is the expanded prompt
(expansion happens at the assistant-marker flush), which differs from the
raw question, and the assistant turn's stored content is the non-empty
string `"User query: "` (the final flush routes the empty trailing buffer
through `parseUserPrompt` as well). -/
theorem parseChat_example_not_raw :
    parseChat resolveNoteA "### Me\nWhat is [[Note A]]?\n### CAO\n" =
      some [⟨Role.user, [⟨"text",
              "User query: What is [[Note A]]?\n\nContext from [[Note A]]:\nNote A body"⟩]⟩,
            ⟨Role.assistant, [⟨"text", "User query: "⟩]⟩] ∧
    ("User query: What is [[Note A]]?\n\nContext from [[Note A]]:\nNote A body" ≠
      "What is [[Note A]]?") ∧
    ("User query: " ≠ "") := by
  decide

/-- C1 (amended): on `"### Me\nWhat is [[Note A]]?\n### CAO\n"` with
`Note A` resolving to `"Note A body"`, `parseChat` returns exactly two
turns: a user turn whose stored content is the reference-expanded prompt
`"User query: What is [[Note A]]?\n\nContext from [[Note A]]:\nNote A
body"`, and an assistant turn whose stored content is `"User query: "`. -/
theorem parseChat_example_two_turns :
    parseChat resolveNoteA "### Me\nWhat is [[Note A]]?\n### CAO\n" =
      some [⟨Role.user, [⟨"text",
              "User query: What is [[Note A]]?\n\nContext from [[Note A]]:\nNote A body"⟩]⟩,
            ⟨Role.assistant, [⟨"text", "User query: "⟩]⟩] := by
  decide

/-- C2: on `"### Me\nWhat is [[Note A]]?"` (no assistant marker) with
`Note A` resolving to `"Note A body"`, `parseChat` returns a single user
turn whose content is exactly
`"User query: What is [[Note A]]?\n\nContext from [[Note A]]:\nNote A body"`. -/
theorem parseChat_example_trailing_expanded :
    parseChat resolveNoteA "### Me\nWhat is [[Note A]]?" =
      some [⟨Role.user, [⟨"text",
              "User query: What is [[Note A]]?\n\nContext from [[Note A]]:\nNote A body"⟩]⟩] := by
  decide

/-! ### The incremental quote transducer: C3 and C9 -/

/-- `List.asString` unpacks to the character list it was built from. -/
theorem asString_data (l : List Char) : l.asString.data = l := rfl

/-- `asString` turns list append into string append. -/
theorem asString_append (a b : List Char) :
    (a ++ b).asString = a.asString ++ b.asString := rfl

/-- The character loop of `processStreamingCalloutContent` only appends to
the accumulated output: running it from accumulator `a` produces `a`
followed by the run from the empty accumulator, with the same final state. -/
theorem foldl_pscc_acc (l : List Char) (a : List Char) (s : Bool) :
    l.foldl processStreamingCalloutStep (a, s) =
      (a ++ (l.foldl processStreamingCalloutStep ([], s)).1,
       (l.foldl processStreamingCalloutStep ([], s)).2) := by
  induction l generalizing a s with
  | nil => simp
  | cons c rest ih =>
      simp only [List.foldl_cons, processStreamingCalloutStep]
      rw [ih ((if s then a ++ ['>', ' '] else a) ++ [c]) (c == '\n'),
          ih ((if s then ([] : List Char) ++ ['>', ' '] else []) ++ [c]) (c == '\n')]
      cases s <;> simp

/-- `processStreamingCalloutContent` agrees with the character fold on every
chunk, the empty one included. -/
theorem processStreamingCalloutContent_eq_foldl (chunk : String) (s : Bool) :
    processStreamingCalloutContent chunk s =
      ((chunk.data.foldl processStreamingCalloutStep ([], s)).1.asString,
       (chunk.data.foldl processStreamingCalloutStep ([], s)).2) := by
  unfold processStreamingCalloutContent
  split
  · rename_i h
    subst h
    rfl
  · rfl

/-- Splitting the character list anywhere splits the fold: the outputs
concatenate and the state threads through. -/
theorem foldl_pscc_append (l1 l2 : List Char) (s : Bool) :
    (l1 ++ l2).foldl processStreamingCalloutStep ([], s) =
      ((l1.foldl processStreamingCalloutStep ([], s)).1 ++
         (l2.foldl processStreamingCalloutStep
           ([], (l1.foldl processStreamingCalloutStep ([], s)).2)).1,
       (l2.foldl processStreamingCalloutStep
         ([], (l1.foldl processStreamingCalloutStep ([], s)).2)).2) := by
  rw [List.foldl_append]
  rcases hf : l1.foldl processStreamingCalloutStep ([], s) with ⟨A, t⟩
  rw [foldl_pscc_acc l2 A t]

/-- C3: for every chunk, every split position `0 ≤ i ≤ length` and every
initial state, transforming the first `i` characters and then the rest
(carrying the returned state) yields the same concatenated output and the
same final state as transforming the whole chunk at once. -/
theorem processStreamingCalloutContent_chunk_split (c : String) (i : Nat) (s : Bool)
    (h : i ≤ c.length) :
    (processStreamingCalloutContent (strTakeChars c i) s).1 ++
        (processStreamingCalloutContent (strDropChars c i)
          (processStreamingCalloutContent (strTakeChars c i) s).2).1 =
      (processStreamingCalloutContent c s).1 ∧
    (processStreamingCalloutContent (strDropChars c i)
        (processStreamingCalloutContent (strTakeChars c i) s).2).2 =
      (processStreamingCalloutContent c s).2 := by
  have key := foldl_pscc_append (c.data.take i) (c.data.drop i) s
  rw [List.take_append_drop] at key
  simp only [processStreamingCalloutContent_eq_foldl, strTakeChars, strDropChars,
    asString_data, key]
  exact ⟨(asString_append _ _).symm, trivial⟩

/-- C3 witness: the split property at chunk `"ab\ncd"`, position 3, initial
state `true`. -/
theorem processStreamingCalloutContent_chunk_split_witness :
    (processStreamingCalloutContent (strTakeChars "ab\ncd" 3) true).1 ++
        (processStreamingCalloutContent (strDropChars "ab\ncd" 3)
          (processStreamingCalloutContent (strTakeChars "ab\ncd" 3) true).2).1 =
      (processStreamingCalloutContent "ab\ncd" true).1 ∧
    (processStreamingCalloutContent (strDropChars "ab\ncd" 3)
        (processStreamingCalloutContent (strTakeChars "ab\ncd" 3) true).2).2 =
      (processStreamingCalloutContent "ab\ncd" true).2 :=
  processStreamingCalloutContent_chunk_split "ab\ncd" 3 true (by decide)

/-- Pushing one character through `quoteStateSpec`. -/
theorem quoteStateSpec_cons (c : Char) (rest : List Char) (s : Bool) :
    quoteStateSpec (c :: rest) s = quoteStateSpec rest (c == '\n') := by
  cases rest with
  | nil => rfl
  | cons d tail => simp [quoteStateSpec, List.getLast?]

/-- The character fold computes the batch specification. -/
theorem foldl_pscc_eq_spec (l : List Char) (s : Bool) :
    l.foldl processStreamingCalloutStep ([], s) =
      (quoteBatchSpec l s, quoteStateSpec l s) := by
  induction l generalizing s with
  | nil => rfl
  | cons c rest ih =>
      simp only [List.foldl_cons, processStreamingCalloutStep]
      rw [foldl_pscc_acc, ih (c == '\n'), quoteStateSpec_cons]
      cases s <;> simp [quoteBatchSpec]

/-- C9: the incremental transducer is equivalent to the batch reference
description — its output inserts `"> "` before the first character when the
incoming state is true and before every character that immediately follows
a `'\n'` (none after a trailing `'\n'`), and its returned state is true
exactly when the chunk ends in `'\n'`, or is empty with a true incoming
state. -/
theorem processStreamingCalloutContent_refines_batch (chunk : String) (s : Bool) :
    processStreamingCalloutContent chunk s =
      ((quoteBatchSpec chunk.data s).asString, quoteStateSpec chunk.data s) := by
  rw [processStreamingCalloutContent_eq_foldl, foldl_pscc_eq_spec]

/-! ### `detectChatFormat`: C7 -/

/-- A non-empty prefix pins down the head of the list it is a prefix of. -/
theorem isPrefixOf_head {p l : List Char} (h : List.isPrefixOf p l = true) :
    p = [] ∨ l.head? = p.head? := by
  cases p with
  | nil => exact Or.inl rfl
  | cons a as =>
      cases l with
      | nil => simp [List.isPrefixOf] at h
      | cons b bs =>
          right
          simp only [List.isPrefixOf, Bool.and_eq_true, beq_iff_eq] at h
          simp [h.1]

/-- A line that starts with a callout marker (first character `'>'`) cannot
also start with a header marker (first character `'#'`). -/
theorem marker_kinds_disjoint (l : String) (h : isCalloutMarkLine l = true) :
    isHeaderMarkLine l = false := by
  have hc : l.data.head? = some '>' := by
    rw [isCalloutMarkLine, Bool.or_eq_true] at h
    cases h with
    | inl h1 =>
        rcases isPrefixOf_head h1 with he | he
        · exact absurd he (by decide)
        · rw [he]; rfl
    | inr h1 =>
        rcases isPrefixOf_head h1 with he | he
        · exact absurd he (by decide)
        · rw [he]; rfl
  rw [isHeaderMarkLine]
  have hu : strStartsWith l headerUserMark = false := by
    cases hs : strStartsWith l headerUserMark with
    | false => rfl
    | true =>
        rcases isPrefixOf_head hs with he | he
        · exact absurd he (by decide)
        · rw [hc] at he
          exact absurd he (by decide)
  have ha : strStartsWith l headerAIMark = false := by
    cases hs : strStartsWith l headerAIMark with
    | false => rfl
    | true =>
        rcases isPrefixOf_head hs with he | he
        · exact absurd he (by decide)
        · rw [hc] at he
          exact absurd he (by decide)
  rw [hu, ha]
  rfl

/-- Once a header marker has been seen (or the flag is set) and a callout
marker has been seen (or its flag is set), but not both flags yet, the scan
ends in `mixed`. -/
theorem detectChatFormatLoop_mixed :
    ∀ (lines : List String) (hH hC : Bool), ¬(hH = true ∧ hC = true) →
      (hH = true ∨ ∃ l ∈ lines, isHeaderMarkLine l = true) →
      (hC = true ∨ ∃ l ∈ lines, isCalloutMarkLine l = true) →
      detectChatFormatLoop lines hH hC = ChatFormat.mixed
  | [], hH, hC, hboth, hh, hc => by
      rcases hh with hh | ⟨l, hl, _⟩
      · rcases hc with hc | ⟨l, hl, _⟩
        · exact absurd ⟨hh, hc⟩ hboth
        · exact absurd hl (List.not_mem_nil l)
      · exact absurd hl (List.not_mem_nil l)
  | line :: rest, hH, hC, hboth, hh, hc => by
      rw [detectChatFormatLoop]
      by_cases hmix : (hH || isHeaderMarkLine line) = true ∧
          (if isHeaderMarkLine line then hC
           else hC || isCalloutMarkLine line) = true
      · rw [if_pos (by simp [hmix.1, hmix.2])]
      · rw [if_neg (by simpa [Bool.and_eq_true] using hmix)]
        apply detectChatFormatLoop_mixed rest _ _ hmix
        · rcases hh with hh | ⟨l, hl, hml⟩
          · left; simp [hh]
          · rcases List.mem_cons.mp hl with rfl | hl
            · left; simp [hml]
            · right; exact ⟨l, hl, hml⟩
        · rcases hc with hc | ⟨l, hl, hml⟩
          · left
            by_cases hhl : isHeaderMarkLine line = true
            · simp [hhl, hc]
            · simp [Bool.of_not_eq_true hhl, hc]
          · rcases List.mem_cons.mp hl with rfl | hl
            · left
              rw [marker_kinds_disjoint l hml]
              simp [hml]
            · right; exact ⟨l, hl, hml⟩

/-- A scan that sees no marker line and starts with both flags clear ends in
`empty`. -/
theorem detectChatFormatLoop_empty :
    ∀ (lines : List String),
      (∀ l ∈ lines, isHeaderMarkLine l = false ∧ isCalloutMarkLine l = false) →
      detectChatFormatLoop lines false false = ChatFormat.empty
  | [], _ => rfl
  | line :: rest, h => by
      have hline := h line (List.mem_cons_self line rest)
      rw [detectChatFormatLoop]
      simp only [hline.1, hline.2, Bool.or_self, Bool.false_and, if_false]
      exact detectChatFormatLoop_empty rest (fun l hl => h l (List.mem_cons_of_mem line hl))

/-- C7: a document with at least one header-marker line and at least one
callout-marker line (in any order, any counts) detects as `mixed`; a
document where no line starts with any marker detects as `empty`. -/
theorem detectChatFormat_mixed_and_empty (text : String) :
    (((∃ l ∈ splitLines text, isHeaderMarkLine l = true) ∧
        (∃ l ∈ splitLines text, isCalloutMarkLine l = true)) →
      detectChatFormat text = ChatFormat.mixed) ∧
    ((∀ l ∈ splitLines text, isHeaderMarkLine l = false ∧ isCalloutMarkLine l = false) →
      detectChatFormat text = ChatFormat.empty) := by
  constructor
  · intro hmix
    exact detectChatFormatLoop_mixed (splitLines text) false false (by simp)
      (Or.inr hmix.1) (Or.inr hmix.2)
  · intro hempty
    exact detectChatFormatLoop_empty (splitLines text) hempty

/-! ### `parseChat`'s alternation check: C5, and the no-marker parse: C10 -/

/-- The Boolean validation loop decides exactly the indexed alternation
property. -/
theorem checkAlternation_iff (messages : List ChatMessage) :
    checkAlternation messages = true ↔ alternationOk messages := by
  unfold checkAlternation alternationOk
  rw [List.all_eq_true]
  constructor
  · intro hall i h
    have hi := hall i (List.mem_range.mpr h)
    rw [List.getD_eq_get messages _ h] at hi
    constructor
    · intro he
      rw [if_pos he] at hi
      exact beq_iff_eq.mp (by simpa using hi)
    · intro ho
      rw [if_neg (by omega)] at hi
      exact beq_iff_eq.mp (by simpa using hi)
  · intro halt i hi
    have h := List.mem_range.mp hi
    have hrole := halt i h
    rw [List.getD_eq_get messages _ h]
    by_cases he : i % 2 = 0
    · rw [if_pos he]
      have := hrole.1 he
      rw [List.get_eq_getElem] at this
      simp [this]
    · rw [if_neg he]
      have := hrole.2 (by omega)
      rw [List.get_eq_getElem] at this
      simp [this]

/-- C5: `parseChat` returns `none` exactly when the constructed turn list
violates the indexed alternation invariant (even indices user, odd indices
assistant); whenever it returns a list, it is the constructed list and it
satisfies the invariant.  As a total function it returns a value — the
violation is signalled by `none`, not by an exception. -/
theorem parseChat_alternation (resolve : String → Option String) (text : String) :
    (parseChat resolve text = none ↔ ¬ alternationOk (parseChatMessages resolve text)) ∧
    (∀ ms, parseChat resolve text = some ms →
      ms = parseChatMessages resolve text ∧ alternationOk ms) := by
  unfold parseChat
  by_cases hc : checkAlternation (parseChatMessages resolve text) = true
  · rw [if_pos hc]
    constructor
    · constructor
      · intro hsome
        exact absurd hsome (Option.some_ne_none _)
      · intro hnot
        exact absurd ((checkAlternation_iff _).mp hc) hnot
    · intro ms hms
      injection hms with hinj
      subst hinj
      exact ⟨rfl, (checkAlternation_iff _).mp hc⟩
  · rw [if_neg hc]
    constructor
    · constructor
      · intro _ halt
        exact hc ((checkAlternation_iff _).mpr halt)
      · intro _
        rfl
    · intro ms hms
      exact Option.noConfusion hms

/-- A line starting with none of the four markers lands in the `else`
branch: it is appended to the buffer and nothing else changes. -/
theorem parseChatLine_no_marker (resolve : String → Option String)
    (st : ParseState) (line : String)
    (h1 : isHeaderMarkLine line = false) (h2 : isCalloutMarkLine line = false) :
    parseChatLine resolve st line =
      ⟨st.messages, st.currentRole, st.content ++ [line], st.inCallout,
       st.processed, st.flushedQueries⟩ := by
  rw [isHeaderMarkLine, Bool.or_eq_false_iff] at h1
  rw [isCalloutMarkLine, Bool.or_eq_false_iff] at h2
  rw [parseChatLine]
  simp [h1.1, h1.2, h2.1, h2.2]

/-- Folding the line loop over marker-free lines only grows the buffer. -/
theorem foldl_parseChatLine_no_marker (resolve : String → Option String) :
    ∀ (lines : List String) (st : ParseState),
      (∀ l ∈ lines, isHeaderMarkLine l = false ∧ isCalloutMarkLine l = false) →
      lines.foldl (parseChatLine resolve) st =
        ⟨st.messages, st.currentRole, st.content ++ lines, st.inCallout,
         st.processed, st.flushedQueries⟩
  | [], st, _ => by simp
  | line :: rest, st, h => by
      have hline := h line (List.mem_cons_self line rest)
      rw [List.foldl_cons, parseChatLine_no_marker resolve st line hline.1 hline.2,
        foldl_parseChatLine_no_marker resolve rest _
          (fun l hl => h l (List.mem_cons_of_mem line hl))]
      simp

/-- C10: when no line of the input starts with any of the four turn
markers, `parseChat` returns `some []` — the empty turn list, which
vacuously passes the alternation check — not `none` and not a non-empty
list. -/
theorem parseChat_no_markers (resolve : String → Option String) (text : String)
    (h : ∀ l ∈ splitLines text, isHeaderMarkLine l = false ∧ isCalloutMarkLine l = false) :
    parseChat resolve text = some [] := by
  have hfold := foldl_parseChatLine_no_marker resolve (splitLines text) initState h
  unfold parseChat parseChatMessages parseChatFold
  rw [hfold]
  rfl

/-- C10 witness: a two-line document with no markers parses to the empty
turn list. -/
theorem parseChat_no_markers_witness :
    parseChat (fun _ => none) "hello\nworld" = some [] :=
  parseChat_no_markers (fun _ => none) "hello\nworld" (by decide)

/-! ### `validateChatFormat`: C8 -/

/-- C8: `validateChatFormat` fails with the mixed-formatting error on
`mixed`, with the no-structure error on `empty`, with the matching
format-mismatch error when the detected single format differs from the
configured expectation, with the empty-query error when the format matches
but no non-marker line has non-blank content, and succeeds returning the
detected format in the remaining cases. -/
theorem validateChatFormat_cases (text : String) (useCallouts : Bool) :
    (detectChatFormat text = ChatFormat.mixed →
      validateChatFormat text useCallouts =
        ⟨false, some ⟨"format",
          "This chat contains mixed formatting (both headers and callouts)."⟩, none⟩) ∧
    (detectChatFormat text = ChatFormat.empty →
      validateChatFormat text useCallouts =
        ⟨false, some ⟨"format",
          "No valid formatting found (headers or callouts)."⟩, none⟩) ∧
    (detectChatFormat text = ChatFormat.headers → useCallouts = true →
      validateChatFormat text useCallouts =
        ⟨false, some ⟨"format",
          "This chat uses header format, please disable \"Use callouts for chat formatting\" in settings to continue."⟩, none⟩) ∧
    (detectChatFormat text = ChatFormat.callouts → useCallouts = false →
      validateChatFormat text useCallouts =
        ⟨false, some ⟨"format",
          "This chat uses callout format, please enable \"Use callouts for chat formatting\" in settings to continue."⟩, none⟩) ∧
    (detectChatFormat text = ChatFormat.headers → useCallouts = false →
      hasContentCheck text = false →
      validateChatFormat text useCallouts =
        ⟨false, some ⟨"empty_message", "Query message is empty."⟩, none⟩) ∧
    (detectChatFormat text = ChatFormat.callouts → useCallouts = true →
      hasContentCheck text = false →
      validateChatFormat text useCallouts =
        ⟨false, some ⟨"empty_message", "Query message is empty."⟩, none⟩) ∧
    (detectChatFormat text = ChatFormat.headers → useCallouts = false →
      hasContentCheck text = true →
      validateChatFormat text useCallouts = ⟨true, none, some ChatFormat.headers⟩) ∧
    (detectChatFormat text = ChatFormat.callouts → useCallouts = true →
      hasContentCheck text = true →
      validateChatFormat text useCallouts = ⟨true, none, some ChatFormat.callouts⟩) := by
  unfold validateChatFormat
  refine ⟨?_, ?_, ?_, ?_, ?_, ?_, ?_, ?_⟩
  · intro hd
    simp [hd]
  · intro hd
    simp [hd]
  · intro hd hu
    subst hu
    simp [hd]
  · intro hd hu
    subst hu
    simp [hd]
  · intro hd hu hc
    subst hu
    simp [hd, hc]
  · intro hd hu hc
    subst hu
    simp [hd, hc]
  · intro hd hu hc
    subst hu
    simp [hd, hc]
  · intro hd hu hc
    subst hu
    simp [hd, hc]

/-! ### `wrapStream`: C6 -/

/-- A delivered event whose mapping does not throw contributes no failure:
failures of `ok a :: rest` are exactly the failures of `rest`. -/
theorem streamHasFailure_cons_ok {α : Type} (a : α)
    (rest : List (Except String α))
    (eventMapper : α → Except String (Option StreamingEvent))
    (hok : ∀ e, eventMapper a ≠ Except.error e) :
    streamHasFailure α (Except.ok a :: rest) eventMapper ↔
      streamHasFailure α rest eventMapper := by
  unfold streamHasFailure
  constructor
  · rintro ⟨x, hx, hfail⟩
    rcases List.mem_cons.mp hx with rfl | hx
    · rcases hfail with ⟨e, he⟩ | ⟨a', e, ha', hm⟩
      · exact absurd he (by simp)
      · have : a' = a := by
          injection ha' with h
          exact h.symm
        subst this
        exact absurd hm (hok e)
    · exact ⟨x, hx, hfail⟩
  · rintro ⟨x, hx, hfail⟩
    exact ⟨x, List.mem_cons_of_mem _ hx, hfail⟩

/-- C6 counterexample: the claim quantifies over *every* adapter function,
but an adapter returning a terminal `done` event makes the wrapper emit two
`done` events for the one-event upstream `[ok 0]` — not exactly one. -/
theorem wrapStream_adversarial_mapper :
    wrapStream Nat [Except.ok 0] (fun _ => Except.ok (some StreamingEvent.done)) =
      [StreamingEvent.done, StreamingEvent.done] ∧
    (wrapStream Nat [Except.ok 0]
        (fun _ => Except.ok (some StreamingEvent.done))).count StreamingEvent.done ≠ 1 := by
  decide

/-- C6 (amended): for every upstream sequence and every adapter whose
mapped events are non-terminal (as the adaptation contract prescribes:
adapters emit only content/usage or skip), the wrapper's output consists of
non-terminal events followed by exactly one terminal event; that terminal
event is `done` exactly when no failure occurred during iteration or
mapping, and an `error` exactly when one did — never both in one stream. -/
theorem wrapStream_single_terminal (α : Type)
    (providerStream : List (Except String α))
    (eventMapper : α → Except String (Option StreamingEvent))
    (hmapper : ∀ a ev, eventMapper a = Except.ok (some ev) → isTerminalEvent ev = false) :
    ∃ events last,
      wrapStream α providerStream eventMapper = events ++ [last] ∧
      (∀ e ∈ events, isTerminalEvent e = false) ∧
      isTerminalEvent last = true ∧
      (last = StreamingEvent.done ↔ ¬ streamHasFailure α providerStream eventMapper) ∧
      ((∃ msg, last = StreamingEvent.error msg) ↔
        streamHasFailure α providerStream eventMapper) := by
  induction providerStream with
  | nil =>
      refine ⟨[], StreamingEvent.done, rfl, by simp, rfl, ?_, ?_⟩
      · simp only [true_iff]
        rintro ⟨x, hx, _⟩
        exact absurd hx (List.not_mem_nil x)
      · constructor
        · rintro ⟨msg, hmsg⟩
          exact StreamingEvent.noConfusion hmsg
        · rintro ⟨x, hx, _⟩
          exact absurd hx (List.not_mem_nil x)
  | cons x rest ih =>
      cases x with
      | error e =>
          refine ⟨[], StreamingEvent.error e, rfl, by simp, rfl, ?_, ?_⟩
          · constructor
            · intro hdone
              exact StreamingEvent.noConfusion hdone
            · intro hnf
              exact absurd ⟨Except.error e, List.mem_cons_self _ _, Or.inl ⟨e, rfl⟩⟩ hnf
          · constructor
            · intro _
              exact ⟨Except.error e, List.mem_cons_self _ _, Or.inl ⟨e, rfl⟩⟩
            · intro _
              exact ⟨e, rfl⟩
      | ok a =>
          cases hm : eventMapper a with
          | error e =>
              refine ⟨[], StreamingEvent.error e, ?_, by simp, rfl, ?_, ?_⟩
              · rw [wrapStream, hm]
                rfl
              · constructor
                · intro hdone
                  exact StreamingEvent.noConfusion hdone
                · intro hnf
                  exact absurd
                    ⟨Except.ok a, List.mem_cons_self _ _, Or.inr ⟨a, e, rfl, hm⟩⟩ hnf
              · constructor
                · intro _
                  exact ⟨Except.ok a, List.mem_cons_self _ _, Or.inr ⟨a, e, rfl, hm⟩⟩
                · intro _
                  exact ⟨e, rfl⟩
          | ok mapped =>
              have hok : ∀ e, eventMapper a ≠ Except.error e := by
                intro e he
                rw [hm] at he
                exact Except.noConfusion he
              obtain ⟨events, last, heq, hev, hterm, hdone, herr⟩ := ih
              cases mapped with
              | none =>
                  refine ⟨events, last, ?_, hev, hterm, ?_, ?_⟩
                  · rw [wrapStream, hm]
                    exact heq
                  · rw [hdone]
                    exact (Iff.not (streamHasFailure_cons_ok a rest eventMapper hok)).symm
                  · rw [herr]
                    exact (streamHasFailure_cons_ok a rest eventMapper hok).symm
              | some mappedEvent =>
                  refine ⟨mappedEvent :: events, last, ?_, ?_, hterm, ?_, ?_⟩
                  · rw [wrapStream, hm, heq]
                    rfl
                  · intro ev hev'
                    rcases List.mem_cons.mp hev' with rfl | hev'
                    · exact hmapper a ev hm
                    · exact hev ev hev'
                  · rw [hdone]
                    exact (Iff.not (streamHasFailure_cons_ok a rest eventMapper hok)).symm
                  · rw [herr]
                    exact (streamHasFailure_cons_ok a rest eventMapper hok).symm

/-- C6 witness: the Anthropic adapter on a clean three-event upstream — the
wrapper ends in a single terminal event, which is `done`. -/
theorem wrapStream_single_terminal_witness :
    ∃ events last,
      wrapStream AnthropicRawEvent
          [Except.ok (AnthropicRawEvent.contentBlockDelta "Hel"),
           Except.ok (AnthropicRawEvent.contentBlockDelta "lo"),
           Except.ok (AnthropicRawEvent.messageDelta (some 12))]
          (fun e => Except.ok (anthropicEventMapper e)) = events ++ [last] ∧
      (∀ e ∈ events, isTerminalEvent e = false) ∧
      isTerminalEvent last = true ∧
      (last = StreamingEvent.done ↔ ¬ streamHasFailure AnthropicRawEvent
          [Except.ok (AnthropicRawEvent.contentBlockDelta "Hel"),
           Except.ok (AnthropicRawEvent.contentBlockDelta "lo"),
           Except.ok (AnthropicRawEvent.messageDelta (some 12))]
          (fun e => Except.ok (anthropicEventMapper e))) ∧
      ((∃ msg, last = StreamingEvent.error msg) ↔
        streamHasFailure AnthropicRawEvent
          [Except.ok (AnthropicRawEvent.contentBlockDelta "Hel"),
           Except.ok (AnthropicRawEvent.contentBlockDelta "lo"),
           Except.ok (AnthropicRawEvent.messageDelta (some 12))]
          (fun e => Except.ok (anthropicEventMapper e))) :=
  wrapStream_single_terminal AnthropicRawEvent _ _
    (by
      intro a ev h
      cases a with
      | contentBlockDelta t =>
          injection h with h1
          injection h1 with h2
          rw [← h2]
          rfl
      | messageDelta o =>
          cases o with
          | none => simp [anthropicEventMapper] at h
          | some n =>
              injection h with h1
              injection h1 with h2
              rw [← h2]
              rfl
      | otherEvent => simp [anthropicEventMapper] at h)

/-! ### Exactly-once wikilink expansion: C4 -/

/-- The `for` loop of `parseUserPrompt`, run over any wikilink list: it
appends the context sections of a list `extra` of newly expanded links to
the prompt and the same `extra` to the processed set; the set stays free of
duplicates, and afterwards it holds exactly the old links plus the
truthily-resolving links of the list. -/
theorem foldl_pupStep_spec (resolve : String → Option String) :
    ∀ (ws : List String) (a : String) (p : List String),
      ∃ extra : List String,
        ws.foldl (parseUserPromptStep resolve) (a, p) =
          (a ++ sectionsFor resolve extra, p ++ extra) ∧
        (p.Nodup → (p ++ extra).Nodup) ∧
        (∀ t, t ∈ p ++ extra ↔
          t ∈ p ∨ (t ∈ ws ∧ ∃ s, resolve t = some s ∧ s ≠ ""))
  | [], a, p =>
      ⟨[], by simp [sectionsFor], fun h => by simpa using h, by simp⟩
  | w :: ws, a, p => by
      rw [List.foldl_cons]
      by_cases hw : w ∈ p
      · rw [show parseUserPromptStep resolve (a, p) w = (a, p) from by
          unfold parseUserPromptStep
          rw [if_pos hw]]
        obtain ⟨extra, heq, hnd, hmem⟩ := foldl_pupStep_spec resolve ws a p
        refine ⟨extra, heq, hnd, fun t => ?_⟩
        rw [hmem t]
        constructor
        · rintro (h | ⟨hws, hT⟩)
          · exact Or.inl h
          · exact Or.inr ⟨List.mem_cons_of_mem w hws, hT⟩
        · rintro (h | ⟨hcons, hT⟩)
          · exact Or.inl h
          · rcases List.mem_cons.mp hcons with rfl | hws
            · exact Or.inl hw
            · exact Or.inr ⟨hws, hT⟩
      · cases hr : resolve w with
        | none =>
            rw [show parseUserPromptStep resolve (a, p) w = (a, p) from by
              unfold parseUserPromptStep
              rw [if_neg hw, hr]]
            obtain ⟨extra, heq, hnd, hmem⟩ := foldl_pupStep_spec resolve ws a p
            refine ⟨extra, heq, hnd, fun t => ?_⟩
            rw [hmem t]
            constructor
            · rintro (h | ⟨hws, hT⟩)
              · exact Or.inl h
              · exact Or.inr ⟨List.mem_cons_of_mem w hws, hT⟩
            · rintro (h | ⟨hcons, hT⟩)
              · exact Or.inl h
              · rcases List.mem_cons.mp hcons with rfl | hws
                · obtain ⟨s, hs, _⟩ := hT
                  rw [hr] at hs
                  exact Option.noConfusion hs
                · exact Or.inr ⟨hws, hT⟩
        | some s =>
            by_cases hs : s = ""
            · subst hs
              rw [show parseUserPromptStep resolve (a, p) w = (a, p) from by
                unfold parseUserPromptStep
                rw [if_neg hw, hr]
                rfl]
              obtain ⟨extra, heq, hnd, hmem⟩ := foldl_pupStep_spec resolve ws a p
              refine ⟨extra, heq, hnd, fun t => ?_⟩
              rw [hmem t]
              constructor
              · rintro (h | ⟨hws, hT⟩)
                · exact Or.inl h
                · exact Or.inr ⟨List.mem_cons_of_mem w hws, hT⟩
              · rintro (h | ⟨hcons, hT⟩)
                · exact Or.inl h
                · rcases List.mem_cons.mp hcons with rfl | hws
                  · obtain ⟨s', hs', hne⟩ := hT
                    rw [hr] at hs'
                    injection hs' with hss
                    exact absurd hss.symm hne
                  · exact Or.inr ⟨hws, hT⟩
            · rw [show parseUserPromptStep resolve (a, p) w =
                    (a ++ wikiSection w s, p ++ [w]) from by
                unfold parseUserPromptStep
                rw [if_neg hw, hr]
                exact if_neg hs]
              obtain ⟨extra, heq, hnd, hmem⟩ :=
                foldl_pupStep_spec resolve ws (a ++ wikiSection w s) (p ++ [w])
              refine ⟨w :: extra, ?_, ?_, ?_⟩
              · rw [heq]
                simp [sectionsFor, hr, String.append_assoc]
              · intro hp
                have hpw : (p ++ [w]).Nodup := by simp [List.nodup_append, hp, hw]
                have h2 := hnd hpw
                simpa using h2
              · intro t
                rw [show p ++ w :: extra = (p ++ [w]) ++ extra from by simp]
                rw [hmem t]
                constructor
                · rintro (hpw | ⟨hws, hT⟩)
                  · rcases List.mem_append.mp hpw with hp2 | hww
                    · exact Or.inl hp2
                    · have ht : t = w := List.mem_singleton.mp hww
                      subst ht
                      exact Or.inr ⟨List.mem_cons_self _ _, ⟨s, hr, hs⟩⟩
                  · exact Or.inr ⟨List.mem_cons_of_mem w hws, hT⟩
                · rintro (hp2 | ⟨hcons, hT⟩)
                  · exact Or.inl (List.mem_append_left _ hp2)
                  · rcases List.mem_cons.mp hcons with rfl | hws
                    · exact Or.inl (List.mem_append_right _ (List.mem_singleton.mpr rfl))
                    · exact Or.inr ⟨hws, hT⟩

/-- `parseUserPrompt` on one query: the same loop, seeded with the
`"User query: "` prefix and the query's wikilinks. -/
theorem parseUserPrompt_spec (resolve : String → Option String) (q : String)
    (p : List String) :
    ∃ extra : List String,
      parseUserPrompt resolve q p =
        ("User query: " ++ q ++ sectionsFor resolve extra, p ++ extra) ∧
      (p.Nodup → (p ++ extra).Nodup) ∧
      (∀ t, t ∈ p ++ extra ↔
        t ∈ p ∨ (t ∈ extractWikilinks q ∧ ∃ s, resolve t = some s ∧ s ≠ "")) := by
  obtain ⟨extra, heq, hnd, hmem⟩ :=
    foldl_pupStep_spec resolve (extractWikilinks q) ("User query: " ++ q) p
  exact ⟨extra, by rw [parseUserPrompt, heq], hnd, hmem⟩

/-- An expanding flush preserves the processed-wikilink invariant with the
flushed query appended to the log. -/
theorem pwInv_expand (resolve : String → Option String) (st : ParseState)
    (q : String) (h : pwInv resolve st) :
    ((parseUserPrompt resolve q st.processed).2).Nodup ∧
    (∀ t, t ∈ (parseUserPrompt resolve q st.processed).2 ↔
      ((∃ s, resolve t = some s ∧ s ≠ "") ∧
        ∃ q' ∈ st.flushedQueries ++ [q], t ∈ extractWikilinks q')) := by
  obtain ⟨extra, heq, hnd, hmem⟩ := parseUserPrompt_spec resolve q st.processed
  have h2 : (parseUserPrompt resolve q st.processed).2 = st.processed ++ extra := by
    rw [heq]
  rw [h2]
  refine ⟨hnd h.1, fun t => ?_⟩
  rw [hmem t, h.2 t]
  constructor
  · rintro (⟨hT, q', hq', hwl⟩ | ⟨hwl, hT⟩)
    · exact ⟨hT, q', List.mem_append_left _ hq', hwl⟩
    · exact ⟨hT, q, List.mem_append_right _ (List.mem_singleton.mpr rfl), hwl⟩
  · rintro ⟨hT, q', hq', hwl⟩
    rcases List.mem_append.mp hq' with hq' | hq'
    · exact Or.inl ⟨hT, q', hq', hwl⟩
    · have : q' = q := List.mem_singleton.mp hq'
      subst this
      exact Or.inr ⟨hwl, hT⟩

/-- Each line of the loop preserves the processed-wikilink invariant. -/
theorem parseChatLine_pwInv (resolve : String → Option String) (st : ParseState)
    (line : String) (h : pwInv resolve st) :
    pwInv resolve (parseChatLine resolve st line) := by
  unfold parseChatLine
  repeat' split
  all_goals
    first
      | exact h
      | exact ⟨(pwInv_expand resolve st _ h).1, (pwInv_expand resolve st _ h).2⟩

/-- The final flush preserves the processed-wikilink invariant. -/
theorem parseChatFinish_pwInv (resolve : String → Option String) (st : ParseState)
    (h : pwInv resolve st) :
    pwInv resolve (parseChatFinish resolve st) := by
  unfold parseChatFinish
  split
  · exact ⟨(pwInv_expand resolve st _ h).1, (pwInv_expand resolve st _ h).2⟩
  · exact h

/-- The whole line loop preserves the processed-wikilink invariant. -/
theorem foldl_parseChatLine_pwInv (resolve : String → Option String) :
    ∀ (lines : List String) (st : ParseState), pwInv resolve st →
      pwInv resolve (lines.foldl (parseChatLine resolve) st)
  | [], _, h => h
  | line :: rest, st, h => by
      rw [List.foldl_cons]
      exact foldl_parseChatLine_pwInv resolve rest _
        (parseChatLine_pwInv resolve st line h)

/-- A full parse establishes the processed-wikilink invariant. -/
theorem parseChatFold_pwInv (resolve : String → Option String) (text : String) :
    pwInv resolve (parseChatFold resolve text) := by
  unfold parseChatFold
  exact parseChatFinish_pwInv resolve _
    (foldl_parseChatLine_pwInv resolve (splitLines text) initState
      ⟨List.nodup_nil, by simp [initState]⟩)

/-- C4: within one parse, a wikilink that resolves truthily ends up in the
processed set exactly once — with multiplicity one exactly when it occurs
in at least one (possibly several) of the expanded flushes — and every
`parseUserPrompt` call produces the raw query followed by exactly the
context sections of the links it newly added to the set (so a link already
in the set — expanded at its first occurrence — contributes no further
section). -/
theorem parseChat_expansion_once (resolve : String → Option String) (text t : String) :
    (parseChatFold resolve text).processed.count t ≤ 1 ∧
    ((parseChatFold resolve text).processed.count t = 1 ↔
      ((∃ s, resolve t = some s ∧ s ≠ "") ∧
        ∃ q ∈ (parseChatFold resolve text).flushedQueries, t ∈ extractWikilinks q)) ∧
    (∀ q p, (parseUserPrompt resolve q p).1 =
      "User query: " ++ q ++
        sectionsFor resolve ((parseUserPrompt resolve q p).2.drop p.length)) := by
  obtain ⟨hnd, hmem⟩ := parseChatFold_pwInv resolve text
  have hcount := List.nodup_iff_count_le_one.mp hnd t
  refine ⟨hcount, ?_, ?_⟩
  · rw [← hmem t]
    constructor
    · intro h1
      exact List.count_pos_iff.mp (by omega)
    · intro hmem2
      have := List.count_pos_iff.mpr hmem2
      omega
  · intro q p
    obtain ⟨extra, heq, _, _⟩ := parseUserPrompt_spec resolve q p
    have h1 : (parseUserPrompt resolve q p).1 =
        "User query: " ++ q ++ sectionsFor resolve extra := by rw [heq]
    have h2 : (parseUserPrompt resolve q p).2 = p ++ extra := by rw [heq]
    rw [h1, h2, List.drop_left]

end CAO
